import Mathlib

/-!
Shallow embedding of `pkg/cmd/roachprod/vm/vm.go`: the VM entity, node-name
formatting, locality derivation, the provider registry with its dispatch
helpers (`ForProvider`, `ProvidersSequential`, `ProvidersParallel`, `FanOut`)
and the memoized active-account lookup.  Go `error` values become an explicit
`Err` inductive, fallible functions return `Except Err _`, and the mutable
global account cache becomes explicit state passing over a small heap model
(so that aliasing between the cached map and returned copies is expressible).
-/

set_option autoImplicit false

namespace RoachVM

/-- Error values of the vm package.  `unknownProviderName` is FanOut's
"unknown provider name: %s", `unknownVmProvider` is ForProvider's
"unknown vm provider: %s", `wrapped ctx e` is `errors.Wrapf(e, "in provider: %s", ctx)`,
and `other` stands for opaque errors produced by actions or backends. -/
inductive Err where
  | unknownProviderName (n : String)
  | unknownVmProvider (n : String)
  | wrapped (provider : String) (cause : Err)
  | other (msg : String)
deriving DecidableEq

/-- Both "unknown provider" error shapes of the source count as the spec's
UnknownProvider error kind. -/
def Err.isUnknownProvider : Err → Bool
  | .unknownProviderName _ => true
  | .unknownVmProvider _ => true
  | _ => false

/-- The VM record from the source.  Timestamps and durations are modelled as
integers; the data-quality markers `Errors` as a list of `Err`. -/
structure VM where
  Name : String
  CreatedAt : Int
  Errors : List Err
  Lifetime : Int
  DNS : String
  Provider : String
  ProviderID : String
  PrivateIP : String
  PublicIP : String
  RemoteUser : String
  VPC : String
  MachineType : String
  Zone : String
deriving DecidableEq

/-- Modelled from the spec: the local-host sentinel Zone value, `config.Local`
from the external config package (not part of this source file). -/
def configLocal : String := "local"

/-- IsLocal returns true if the VM represents the local host. -/
def VM.IsLocal (vm : VM) : Bool := vm.Zone == configLocal

/-- Left-pad a digit string with zeros to at least four characters, the effect
of the `%0.4d` verb's precision on the digits of the absolute value. -/
def zeroPad4 (s : String) : String :=
  String.mk (List.replicate (4 - s.length) '0') ++ s

/-- Go's `fmt.Sprintf("%0.4d", i)`: the decimal digits of `|i|` padded with
leading zeros to at least four digits, preceded by the sign for negatives. -/
def fmtDec4 (i : Int) : String :=
  (if i < 0 then "-" else "") ++ zeroPad4 (Nat.repr i.natAbs)

/-- Name generates the name for the i'th node in a cluster:
`fmt.Sprintf("%s-%0.4d", cluster, idx)`. -/
def Name (cluster : String) (idx : Int) : String :=
  cluster ++ "-" ++ fmtDec4 idx

/-- CreateOpts is the set of options when creating VMs. -/
structure CreateOpts where
  Lifetime : Int
  GeoDistributed : Bool
  VMProviders : List String
  UseLocalSSD : Bool
  NoExt4Barrier : Bool

/-- The Provider capability contract.  Each Go method that may fail returns
`Except Err _`; the flag-extension hook is external CLI plumbing and is not
modelled. -/
structure Provider where
  CleanSSH : Except Err Unit
  ConfigSSH : Except Err Unit
  Create : List String → CreateOpts → Except Err Unit
  Delete : List VM → Except Err Unit
  Extend : List VM → Int → Except Err Unit
  FindActiveAccount : Except Err String
  List : Except Err (List VM)
  Name : String

/-- The global `Providers` map, passed explicitly: a backend-name keyed
association list (Go map iteration order is unspecified; no claim below
depends on the order of keys). -/
abbrev Registry := List (String × Provider)

/-- `Providers[named]` lookup. -/
def lookupProvider (reg : Registry) (named : String) : Option Provider :=
  (reg.find? (fun kv => kv.1 == named)).map (fun kv => kv.2)

/-- AllProviderNames returns the names of all known vm Providers. -/
def AllProviderNames (reg : Registry) : List String :=
  reg.map (fun kv => kv.1)

/-- ForProvider resolves the Provider with the given name and executes the
action; an absent name yields the "unknown vm provider" error, and an action
failure is wrapped with the provider name as context. -/
def ForProvider (reg : Registry) (named : String)
    (action : Provider → Except Err Unit) : Except Err Unit :=
  match lookupProvider reg named with
  | none => Except.error (Err.unknownVmProvider named)
  | some p =>
    match action p with
    | Except.error e => Except.error (Err.wrapped named e)
    | Except.ok _ => Except.ok ()

/-- ProvidersSequential sequentially executes actions for each named
Provider, returning at the first error. -/
def ProvidersSequential (reg : Registry) (named : List String)
    (action : Provider → Except Err Unit) : Except Err Unit :=
  match named with
  | [] => Except.ok ()
  | n :: rest =>
    match ForProvider reg n action with
    | Except.error e => Except.error e
    | Except.ok _ => ProvidersSequential reg rest action

/-- `errgroup.Group.Wait` over the results of the launched goroutines, taken
in their completion order: the first error encountered, or success. -/
def firstError : List (Except Err Unit) → Except Err Unit
  | [] => Except.ok ()
  | Except.ok _ :: rest => firstError rest
  | Except.error e :: _ => Except.error e

/-- ProvidersParallel concurrently executes actions for each named Provider
via an errgroup.  Each name's invocation is independent; `completionOrder`
models the (nondeterministic) order in which the goroutines finish, and the
call returns the first error in that order, as `errgroup.Wait` does. -/
def ProvidersParallel (reg : Registry) (named : List String)
    (action : Provider → Except Err Unit) (completionOrder : List String) :
    Except Err Unit :=
  firstError (completionOrder.map (fun n => ForProvider reg n action))

/-- The grouping loop of FanOut: `m[vm.Provider] = append(m[vm.Provider], vm)`
over the input in order, with the map modelled as a function from provider
name to accumulated sub-collection. -/
def fanOutPartition (list : List VM) : String → List VM :=
  list.foldl
    (fun m vm => fun p => if p = vm.Provider then m p ++ [vm] else m p)
    (fun _ => [])

/-- The distinct provider names occurring in a collection: the key set of the
grouping map built by FanOut (Go iterates map keys in unspecified order). -/
def distinctProviders (list : List VM) : List String :=
  (list.map VM.Provider).dedup

/-- The body of one FanOut goroutine: resolve the group's provider name in the
registry ("unknown provider name" error when absent) and otherwise invoke the
action on the group's sub-collection. -/
def fanOutGroupRun (reg : Registry) (action : Provider → List VM → Except Err Unit)
    (n : String) (v : List VM) : Except Err Unit :=
  match lookupProvider reg n with
  | none => Except.error (Err.unknownProviderName n)
  | some p => action p v

/-- FanOut collates a collection of VMs by their provider and invokes the
callbacks; every group's invocation runs, and the overall result is the first
error among them (the completion order of the goroutines and the iteration
order of the Go map are both nondeterministic; the group order used here is a
canonical representative and no claim depends on it). -/
def FanOut (reg : Registry) (list : List VM)
    (action : Provider → List VM → Except Err Unit) : Except Err Unit :=
  firstError ((distinctProviders list).map
    (fun n => fanOutGroupRun reg action n (fanOutPartition list n)))

/-- `'a' ≤ c ≤ 'z'`: the character class `[a-z]` of `regionRE`. -/
def isLowerAZ (c : Char) : Bool := 'a' ≤ c && c ≤ 'z'

/-- Whether a candidate capture for the group `(.*[^-])` is admissible: it is
nonempty and its final character — the one consumed by `[^-]` — is not a
hyphen.  (`[^-]` is a negated class, and Go's regexp syntax in its default
Perl mode sets ClassNL, so a negated class may match a newline.) -/
def lastNonHyphen (g : List Char) : Bool :=
  match g.getLast? with
  | some ch => ch != '-'
  | none => false

/-- The `.*` constraint on a candidate capture: every character except the
final one (which `[^-]` consumes) is matched by `.`, and Go's `.` without the
`s` flag does not match a newline. -/
def dotStarOK (g : List Char) : Bool :=
  g.dropLast.all (fun ch => ch != '\n')

/-- Whether the remainder of the zone string after the capture group matches
`-?[a-z]$`: either a single lowercase letter, or a hyphen followed by one
(`-?` prefers to consume the hyphen; with the `$` anchor no other shape can
succeed). -/
def tailMatchesRE : List Char → Bool
  | [c] => isLowerAZ c
  | ['-', c] => isLowerAZ c
  | _ => false

/-- Backtracking search for the capture group of
`regionRE = (.*[^-])-?[a-z]$` in a match anchored at the start of `cs` and, by
the `$` anchor (end of text: Go's default mode sets OneLine), consuming all of
`cs`: candidate groups are the prefixes of `cs`, tried longest first because
`.*` is greedy, and a candidate is feasible only when its `.*` part crosses no
newline (`dotStarOK`) and its `[^-]` character is not a hyphen. -/
def tryGroup (cs : List Char) : Nat → Option (List Char)
  | 0 => none
  | m + 1 =>
    if dotStarOK (cs.take (m + 1)) && lastNonHyphen (cs.take (m + 1))
        && tailMatchesRE (cs.drop (m + 1)) then
      some (cs.take (m + 1))
    else
      tryGroup cs m

/-- `regionRE.FindStringSubmatch`'s capture group: scan start positions left to
right (Go regexp returns the leftmost match) and at each position attempt an
anchored match running to the end of the string. -/
def regionREFind : List Char → Option (List Char)
  | [] => none
  | c :: rest =>
    match tryGroup (c :: rest) (rest.length + 1) with
    | some g => some g
    | none => regionREFind rest

/-- The outcome of `Locality`: either the formatted string, or the
`log.Fatalf` call, which terminates the whole process. -/
inductive LocalityResult where
  | ok (s : String)
  | fatal (msg : String)
deriving DecidableEq

/-- Locality returns the cloud, region, and zone for the VM.  The region is
the Zone for a local VM, otherwise `regionRE`'s capture group; when neither
applies the source calls `log.Fatalf`, modelled by the `fatal` result. -/
def Locality (vm : VM) : LocalityResult :=
  let regionR : Option String :=
    if vm.IsLocal then some vm.Zone
    else
      match regionREFind vm.Zone.data with
      | some g => some (String.mk g)
      | none => none
  match regionR with
  | some region =>
    LocalityResult.ok
      ("cloud=" ++ vm.Provider ++ ",region=" ++ region ++ ",zone=" ++ vm.Zone)
  | none =>
    LocalityResult.fatal ("unable to parse region from zone \"" ++ vm.Zone ++ "\"")

/-! ### The active-account cache

`cachedActiveAccounts` is a mutable global map in the source, and the returned
value of `FindActiveAccounts` is a freshly allocated copy of it.  To speak
about aliasing we model Go maps held by the function as heap cells: the heap
is a list of maps, an address is an index, and the process state carries the
heap together with the optional address of the cached map. -/

/-- A Go `map[string]string` value: an association list with at most one
binding per key (assignments replace an existing binding). -/
abbrev AccountMap := List (String × String)

/-- Go map assignment `m[k] = v`: replace the binding of `k` when present,
otherwise add it. -/
def mapSet (m : AccountMap) (k v : String) : AccountMap :=
  match m with
  | [] => [(k, v)]
  | (k2, v2) :: rest =>
    if k2 == k then (k, v) :: rest else (k2, v2) :: mapSet rest k v

/-- The copy loop `ret := make(...); for k, v := range source { ret[k] = v }`. -/
def mapCopy (m : AccountMap) : AccountMap :=
  m.foldl (fun acc kv => mapSet acc kv.1 kv.2) []

/-- Read the map stored at a heap address (the empty map for a dangling
address; reachable states never read one). -/
def heapRead (h : List AccountMap) (a : Nat) : AccountMap := h.getD a []

/-- A caller mutating the map object at address `a` in place. -/
def heapWrite (h : List AccountMap) (a : Nat) (m : AccountMap) : List AccountMap :=
  h.set a m

/-- Allocate a fresh map object, returning the extended heap and its address. -/
def heapAlloc (h : List AccountMap) (m : AccountMap) : List AccountMap × Nat :=
  (h ++ [m], h.length)

/-- The process state relevant to `FindActiveAccounts`: the heap of map
objects and the `cachedActiveAccounts` global (`none` is Go's nil map). -/
structure AccountsState where
  heap : List AccountMap
  cachedActiveAccounts : Option Nat
deriving DecidableEq

/-- The iteration `ProvidersSequential(AllProviderNames(), closure)` performed
by `FindActiveAccounts`, with the closure's mutation of the captured `source`
map threaded as an accumulator: for each name, `ForProvider` resolves the
provider (failing with "unknown vm provider" when absent, wrapping any error
with the name), the closure queries `FindActiveAccount`, and a non-empty
account is stored under `p.Name()`. -/
def findActiveAccountsLoop (reg : Registry) (names : List String)
    (source : AccountMap) : Except Err AccountMap :=
  match names with
  | [] => Except.ok source
  | n :: rest =>
    match lookupProvider reg n with
    | none => Except.error (Err.unknownVmProvider n)
    | some p =>
      match p.FindActiveAccount with
      | Except.error e => Except.error (Err.wrapped n e)
      | Except.ok account =>
        findActiveAccountsLoop reg rest
          (if account.length > 0 then mapSet source p.Name account else source)

/-- FindActiveAccounts queries the active providers for the name of the user
account: on a cache miss it runs the account-collecting loop, stores the
resulting map in the cache on success (no cache update on failure), and on
every successful path returns the address of a freshly allocated copy of the
cached map. -/
def FindActiveAccounts (reg : Registry) (st : AccountsState) :
    AccountsState × Except Err Nat :=
  match st.cachedActiveAccounts with
  | some srcAddr =>
    let src := heapRead st.heap srcAddr
    let (h1, retAddr) := heapAlloc st.heap (mapCopy src)
    ({ st with heap := h1 }, Except.ok retAddr)
  | none =>
    match findActiveAccountsLoop reg (AllProviderNames reg) [] with
    | Except.error e => (st, Except.error e)
    | Except.ok source =>
      let (h1, srcAddr) := heapAlloc st.heap source
      let (h2, retAddr) := heapAlloc h1 (mapCopy source)
      ({ heap := h2, cachedActiveAccounts := some srcAddr }, Except.ok retAddr)

/-! ### Concrete demonstration values used by the witness theorems -/

def demoVM : VM :=
  { Name := "", CreatedAt := 0, Errors := [], Lifetime := 0, DNS := "",
    Provider := "", ProviderID := "", PrivateIP := "", PublicIP := "",
    RemoteUser := "", VPC := "", MachineType := "", Zone := "" }

def vmA : VM := { demoVM with Name := "c-0001", Provider := "aws" }

def vmB : VM := { demoVM with Name := "c-0002", Provider := "gce" }

def vmC : VM := { demoVM with Name := "c-0003", Provider := "aws" }

def demoList : List VM := [vmA, vmB, vmC]

def mkProvider (nm : String) (acct : Except Err String) : Provider :=
  { CleanSSH := Except.ok (), ConfigSSH := Except.ok (),
    Create := fun _ _ => Except.ok (), Delete := fun _ => Except.ok (),
    Extend := fun _ _ => Except.ok (), FindActiveAccount := acct,
    List := Except.ok [], Name := nm }

def pA : Provider := mkProvider "a" (Except.ok "alice")

def pB : Provider := mkProvider "b" (Except.ok "bob")

def pC : Provider := mkProvider "c" (Except.ok "carol")

def regABC : Registry := [("a", pA), ("b", pB), ("c", pC)]

def demoAction : Provider → Except Err Unit := fun p =>
  if p.Name == "b" then Except.error (Err.other "boom") else Except.ok ()

def pAws : Provider := mkProvider "aws" (Except.ok "alice")

def regAWS : Registry := [("aws", pAws)]

def demoFanAction : Provider → List VM → Except Err Unit := fun _ _ => Except.ok ()

def pGceBad : Provider := mkProvider "gce" (Except.error (Err.other "denied"))

def regAccounts : Registry := [("aws", pAws), ("gce", pGceBad)]

def demoState0 : AccountsState := { heap := [], cachedActiveAccounts := none }

def demoMap : AccountMap := [("aws", "alice")]

/-! ### Helper lemmas -/

theorem fanOutPartition_foldl (list : List VM) (m : String → List VM) (p : String) :
    (list.foldl
        (fun m vm => fun q => if q = vm.Provider then m q ++ [vm] else m q) m) p
      = m p ++ list.filter (fun vm => vm.Provider == p) := by
  induction list generalizing m with
  | nil => simp
  | cons vm rest ih =>
    simp only [List.foldl_cons, List.filter_cons]
    rw [ih]
    by_cases h : vm.Provider = p
    · subst h
      simp
    · have hb : (vm.Provider == p) = false := by simp [h]
      have hq : ¬(p = vm.Provider) := fun hq => h hq.symm
      simp [hb, hq]

theorem fanOutPartition_eq_filter (list : List VM) (p : String) :
    fanOutPartition list p = list.filter (fun vm => vm.Provider == p) := by
  have h := fanOutPartition_foldl list (fun _ => []) p
  simpa [fanOutPartition] using h

theorem firstError_ok_iff (l : List (Except Err Unit)) :
    firstError l = Except.ok () ↔ ∀ x ∈ l, x = Except.ok () := by
  induction l with
  | nil => simp [firstError]
  | cons x rest ih =>
    cases x with
    | ok u => cases u; simp [firstError, ih]
    | error e => simp [firstError]

theorem firstError_error_mem (l : List (Except Err Unit)) (e : Err)
    (h : firstError l = Except.error e) : Except.error e ∈ l := by
  induction l with
  | nil => simp [firstError] at h
  | cons x rest ih =>
    cases x with
    | ok u =>
      cases u
      simp only [firstError] at h
      exact List.mem_cons_of_mem _ (ih h)
    | error e2 =>
      simp [firstError] at h
      simp [h]

theorem providersSequential_append_ok (reg : Registry)
    (action : Provider → Except Err Unit) (pre rest : List String)
    (hpre : ∀ m ∈ pre, ForProvider reg m action = Except.ok ()) :
    ProvidersSequential reg (pre ++ rest) action
      = ProvidersSequential reg rest action := by
  induction pre with
  | nil => simp
  | cons m pre2 ih =>
    have hm : ForProvider reg m action = Except.ok () := hpre m (by simp)
    have ih2 := ih (fun x hx => hpre x (by simp [hx]))
    simp only [List.cons_append, ProvidersSequential, hm]
    exact ih2

theorem providersSequential_all_ok (reg : Registry)
    (action : Provider → Except Err Unit) (named : List String)
    (h : ∀ m ∈ named, ForProvider reg m action = Except.ok ()) :
    ProvidersSequential reg named action = Except.ok () := by
  induction named with
  | nil => rfl
  | cons m rest ih =>
    have hm : ForProvider reg m action = Except.ok () := h m (by simp)
    have ih2 := ih (fun x hx => h x (by simp [hx]))
    simp only [ProvidersSequential, hm]
    exact ih2

/-! ### Claim theorems -/

/-- C10: `Name(c, i)` is `c`, a hyphen, and the decimal representation of `i`
whose digits are left-padded with zeros to at least four digits (the sign, for
a negative index, precedes the padded digits), e.g. `Name("foo", 7) =
"foo-0007"`. -/
theorem name_zero_pads_index (c : String) (i : Int) :
    Name c i = c ++ "-" ++ (if i < 0 then "-" else "")
        ++ String.mk (List.replicate (4 - (Nat.repr i.natAbs).length) '0')
        ++ Nat.repr i.natAbs
    ∧ (zeroPad4 (Nat.repr i.natAbs)).length = max 4 (Nat.repr i.natAbs).length
    ∧ Name "foo" 7 = "foo-0007" := by
  refine ⟨?_, ?_, by decide⟩
  · simp only [Name, fmtDec4, zeroPad4, String.append_assoc]
  · have h : (String.mk (List.replicate (4 - (Nat.repr i.natAbs).length) '0')).length
        = 4 - (Nat.repr i.natAbs).length := by
      show (List.replicate (4 - (Nat.repr i.natAbs).length) '0').length
          = 4 - (Nat.repr i.natAbs).length
      exact List.length_replicate _ _
    rw [zeroPad4, String.length_append, h]
    omega

/-- C3: `ForProvider` fails with the UnknownProvider error when the name is
absent from the registry, independently of the action; when present it invokes
the action, wrapping an action error with the provider name as context and
returning success when the action succeeds. -/
theorem forProvider_contract (reg : Registry) (named : String)
    (action : Provider → Except Err Unit) :
    (lookupProvider reg named = none →
        ForProvider reg named action = Except.error (Err.unknownVmProvider named)
        ∧ (Err.unknownVmProvider named).isUnknownProvider = true
        ∧ ∀ action2, ForProvider reg named action2
            = Except.error (Err.unknownVmProvider named))
    ∧ (∀ p e, lookupProvider reg named = some p → action p = Except.error e →
        ForProvider reg named action = Except.error (Err.wrapped named e))
    ∧ (∀ p, lookupProvider reg named = some p → action p = Except.ok () →
        ForProvider reg named action = Except.ok ()) := by
  refine ⟨fun h => ⟨?_, rfl, fun action2 => ?_⟩, fun p e hp ha => ?_,
    fun p hp ha => ?_⟩
  · simp [ForProvider, h]
  · simp [ForProvider, h]
  · simp [ForProvider, hp, ha]
  · simp [ForProvider, hp, ha]

theorem forProvider_contract_witness :
    lookupProvider regABC "b" = some pB
    ∧ demoAction pB = Except.error (Err.other "boom")
    ∧ ForProvider regABC "b" demoAction
        = Except.error (Err.wrapped "b" (Err.other "boom"))
    ∧ ForProvider [] "zz" demoAction = Except.error (Err.unknownVmProvider "zz") := by
  refine ⟨rfl, rfl, ?_, ?_⟩
  · exact (forProvider_contract regABC "b" demoAction).2.1 pB (Err.other "boom") rfl rfl
  · exact ((forProvider_contract [] "zz" demoAction).1 rfl).1

/-- C4: `ProvidersSequential` iterates the names in order and is fail-fast: if
every name before `n` succeeds and `n`'s invocation fails, the first error is
returned and the outcome coincides with that of the run in which the later
names do not exist at all (so the action is never invoked for them); if every
invocation succeeds, it returns success. -/
theorem providersSequential_fail_fast (reg : Registry)
    (action : Provider → Except Err Unit) (pre post : List String) (n : String)
    (e : Err)
    (hpre : ∀ m ∈ pre, ForProvider reg m action = Except.ok ())
    (hn : ForProvider reg n action = Except.error e) :
    ProvidersSequential reg (pre ++ n :: post) action = Except.error e
    ∧ ProvidersSequential reg (pre ++ n :: post) action
        = ProvidersSequential reg (pre ++ [n]) action
    ∧ ∀ named, (∀ m ∈ named, ForProvider reg m action = Except.ok ()) →
        ProvidersSequential reg named action = Except.ok () := by
  have h1 : ProvidersSequential reg (pre ++ n :: post) action = Except.error e := by
    rw [providersSequential_append_ok reg action pre (n :: post) hpre]
    simp [ProvidersSequential, hn]
  have h2 : ProvidersSequential reg (pre ++ [n]) action = Except.error e := by
    rw [providersSequential_append_ok reg action pre [n] hpre]
    simp [ProvidersSequential, hn]
  exact ⟨h1, h1.trans h2.symm, providersSequential_all_ok reg action⟩

theorem providersSequential_fail_fast_witness :
    ForProvider regABC "a" demoAction = Except.ok ()
    ∧ ForProvider regABC "b" demoAction
        = Except.error (Err.wrapped "b" (Err.other "boom"))
    ∧ ProvidersSequential regABC ["a", "b", "c"] demoAction
        = Except.error (Err.wrapped "b" (Err.other "boom")) := by
  refine ⟨rfl, rfl, ?_⟩
  exact (providersSequential_fail_fast regABC demoAction ["a"] ["c"] "b"
    (Err.wrapped "b" (Err.other "boom"))
    (fun m hm => by rw [List.mem_singleton] at hm; subst hm; rfl) rfl).1

/-- C5: `ProvidersParallel` launches one invocation of `ForProvider` per name
in the list — modelled by mapping over the names, with `completionOrder` a
permutation of the names standing for the nondeterministic goroutine
completion order — every invocation's result is computed independently of the
others, the call succeeds iff every invocation succeeds, and a returned error
is the error of one of the invocations. -/
theorem providersParallel_spec (reg : Registry)
    (action : Provider → Except Err Unit) (named order : List String)
    (h : order.Perm named) :
    (ProvidersParallel reg named action order = Except.ok ()
       ↔ ∀ n ∈ named, ForProvider reg n action = Except.ok ())
    ∧ (∀ e, ProvidersParallel reg named action order = Except.error e →
        ∃ n ∈ named, ForProvider reg n action = Except.error e)
    ∧ (order.map (fun n => ForProvider reg n action)).Perm
        (named.map (fun n => ForProvider reg n action)) := by
  refine ⟨?_, fun e he => ?_, h.map _⟩
  · rw [ProvidersParallel, firstError_ok_iff]
    constructor
    · intro hall n hn
      exact hall _ (List.mem_map_of_mem _ (h.mem_iff.mpr hn))
    · intro hall x hx
      rcases List.mem_map.mp hx with ⟨n, hn, rfl⟩
      exact hall n (h.mem_iff.mp hn)
  · have hmem := firstError_error_mem _ e he
    rcases List.mem_map.mp hmem with ⟨n, hn, hfe⟩
    exact ⟨n, h.mem_iff.mp hn, hfe⟩

theorem providersParallel_spec_witness :
    List.Perm ["c", "a", "b"] ["a", "b", "c"]
    ∧ ProvidersParallel regABC ["a", "b", "c"] demoAction ["c", "a", "b"]
        = Except.error (Err.wrapped "b" (Err.other "boom"))
    ∧ ∃ n ∈ ["a", "b", "c"], ForProvider regABC n demoAction
        = Except.error (Err.wrapped "b" (Err.other "boom")) := by
  have hperm : List.Perm ["c", "a", "b"] ["a", "b", "c"] := by decide
  exact ⟨hperm, rfl,
    (providersParallel_spec regABC demoAction ["a", "b", "c"] ["c", "a", "b"]
      hperm).2.1 _ rfl⟩

/-- C1: FanOut's grouping loop is a stable partition of the collection by the
`Provider` field: each group is exactly the order-preserving sub-sequence of
the input with that provider, every VM occurrence lands exactly once in the
group of its own provider and in no other group, and a group is non-empty
exactly for the distinct provider names of the input. -/
theorem fanOut_stable_partition (list : List VM) :
    (∀ p, fanOutPartition list p = list.filter (fun vm => vm.Provider == p))
    ∧ (∀ p, (fanOutPartition list p).Sublist list)
    ∧ (∀ p vm, vm ∈ fanOutPartition list p → vm.Provider = p)
    ∧ (∀ vm, (fanOutPartition list vm.Provider).count vm = list.count vm)
    ∧ (∀ p vm, vm.Provider ≠ p → vm ∉ fanOutPartition list p)
    ∧ (∀ p, fanOutPartition list p ≠ [] ↔ p ∈ list.map VM.Provider) := by
  have hf := fanOutPartition_eq_filter list
  refine ⟨hf, fun p => ?_, fun p vm hmem => ?_, fun vm => ?_, fun p vm hne hmem => ?_,
    fun p => ?_⟩
  · rw [hf p]; exact List.filter_sublist _
  · rw [hf p] at hmem
    simpa using (List.of_mem_filter hmem)
  · rw [hf vm.Provider]
    rw [List.count_filter (by simp)]
  · rw [hf p] at hmem
    exact hne (by simpa using List.of_mem_filter hmem)
  · rw [hf p]
    constructor
    · intro hne
      rcases List.exists_mem_of_ne_nil _ hne with ⟨vm, hvm⟩
      have hp : vm.Provider = p := by simpa using List.of_mem_filter hvm
      exact List.mem_map.mpr ⟨vm, List.mem_of_mem_filter hvm, hp⟩
    · intro hp hnil
      rcases List.mem_map.mp hp with ⟨vm, hvm, hvp⟩
      have : vm ∈ list.filter (fun vm => vm.Provider == p) :=
        List.mem_filter.mpr ⟨hvm, by simp [hvp]⟩
      simp [hnil] at this

theorem fanOut_stable_partition_witness :
    vmA ∈ fanOutPartition demoList "aws"
    ∧ vmA.Provider = "aws"
    ∧ fanOutPartition demoList "aws" = [vmA, vmC] := by
  refine ⟨by decide, ?_, ?_⟩
  · exact (fanOut_stable_partition demoList).2.2.1 "aws" vmA (by decide)
  · rw [(fanOut_stable_partition demoList).1 "aws"]
    decide

/-- C2: in a FanOut over a collection mentioning provider name `n` that is
absent from the registry, `n`'s group invocation fails with the
UnknownProvider error, while every other group whose provider is registered
still invokes the action with its full sub-collection (the stable filter of
the input by that provider). -/
theorem fanOut_missing_provider_isolated (reg : Registry)
    (action : Provider → List VM → Except Err Unit) (list : List VM) (n : String)
    (hmem : n ∈ list.map VM.Provider) (hmiss : lookupProvider reg n = none) :
    (fanOutGroupRun reg action n (fanOutPartition list n)
        = Except.error (Err.unknownProviderName n)
      ∧ (Err.unknownProviderName n).isUnknownProvider = true
      ∧ n ∈ distinctProviders list)
    ∧ ∀ m p, m ∈ distinctProviders list → m ≠ n → lookupProvider reg m = some p →
        fanOutGroupRun reg action m (fanOutPartition list m)
          = action p (list.filter (fun vm => vm.Provider == m)) := by
  refine ⟨⟨?_, rfl, ?_⟩, fun m p _ _ hp => ?_⟩
  · simp [fanOutGroupRun, hmiss]
  · exact List.mem_dedup.mpr hmem
  · rw [fanOutPartition_eq_filter]
    simp [fanOutGroupRun, hp]

theorem fanOut_missing_provider_isolated_witness :
    lookupProvider regAWS "gce" = none
    ∧ "gce" ∈ demoList.map VM.Provider
    ∧ fanOutGroupRun regAWS demoFanAction "gce" (fanOutPartition demoList "gce")
        = Except.error (Err.unknownProviderName "gce")
    ∧ fanOutGroupRun regAWS demoFanAction "aws" (fanOutPartition demoList "aws")
        = demoFanAction pAws (demoList.filter (fun vm => vm.Provider == "aws")) := by
  refine ⟨rfl, by decide, ?_, ?_⟩
  · exact ((fanOut_missing_provider_isolated regAWS demoFanAction demoList "gce"
      (by decide) rfl).1).1
  · exact (fanOut_missing_provider_isolated regAWS demoFanAction demoList "gce"
      (by decide) rfl).2 "aws" pAws (by decide) (by decide) rfl

/-! ### Region-parsing lemmas -/

theorem tryGroup_succ (cs : List Char) (m : Nat) :
    tryGroup cs (m + 1)
      = if dotStarOK (cs.take (m + 1)) && lastNonHyphen (cs.take (m + 1))
            && tailMatchesRE (cs.drop (m + 1))
        then some (cs.take (m + 1)) else tryGroup cs m := rfl

theorem tryGroup_concat (p0 : Char) (ptl : List Char) (c : Char)
    (hdot : dotStarOK (p0 :: ptl) = true)
    (hlast : lastNonHyphen (p0 :: ptl) = true) (hc : isLowerAZ c = true) :
    tryGroup (p0 :: (ptl ++ '-' :: [c])) (ptl.length + 3) = some (p0 :: ptl) := by
  show tryGroup ((p0 :: ptl) ++ '-' :: [c]) (ptl.length + 3) = some (p0 :: ptl)
  have hlen3 : ((p0 :: ptl) ++ '-' :: [c]).length = ptl.length + 3 := by simp
  have ht3 : ((p0 :: ptl) ++ '-' :: [c]).take (ptl.length + 3)
      = (p0 :: ptl) ++ '-' :: [c] := by
    rw [← hlen3]; exact List.take_length _
  have hd3 : ((p0 :: ptl) ++ '-' :: [c]).drop (ptl.length + 3) = [] := by
    rw [← hlen3]; exact List.drop_length _
  have hsplit : (p0 :: ptl) ++ '-' :: [c] = ((p0 :: ptl) ++ ['-']) ++ [c] := by simp
  have ht2 : ((p0 :: ptl) ++ '-' :: [c]).take (ptl.length + 2)
      = p0 :: (ptl ++ ['-']) := by
    rw [hsplit]; exact List.take_left' (by simp)
  have ht1 : ((p0 :: ptl) ++ '-' :: [c]).take (ptl.length + 1) = p0 :: ptl :=
    List.take_left' (by simp)
  have hd1 : ((p0 :: ptl) ++ '-' :: [c]).drop (ptl.length + 1) = '-' :: [c] :=
    List.drop_left' (by simp)
  have hg2 : (p0 :: (ptl ++ ['-'])).getLast? = some '-' := by
    rw [← List.cons_append]; exact List.getLast?_concat _
  have hl2 : lastNonHyphen (p0 :: (ptl ++ ['-'])) = false := by
    simp [lastNonHyphen, hg2]
  show tryGroup ((p0 :: ptl) ++ '-' :: [c]) ((ptl.length + 2) + 1) = some (p0 :: ptl)
  rw [tryGroup_succ, ht3, hd3]
  rw [show tailMatchesRE [] = false from rfl, Bool.and_false, if_neg (by simp),
    tryGroup_succ, ht2, hl2]
  simp only [Bool.and_false, Bool.false_and, if_neg (Bool.false_ne_true)]
  rw [tryGroup_succ, ht1, hd1, hdot, hlast]
  simp [tailMatchesRE, hc]

theorem regionREFind_cons (x : Char) (rest : List Char) :
    regionREFind (x :: rest)
      = match tryGroup (x :: rest) (rest.length + 1) with
        | some g => some g
        | none => regionREFind rest := rfl

theorem regionREFind_concat (p0 : Char) (ptl : List Char) (c : Char)
    (hdot : dotStarOK (p0 :: ptl) = true)
    (hlast : lastNonHyphen (p0 :: ptl) = true) (hc : isLowerAZ c = true) :
    regionREFind (p0 :: (ptl ++ '-' :: [c])) = some (p0 :: ptl) := by
  rw [regionREFind_cons]
  have hlen : (ptl ++ '-' :: [c]).length + 1 = ptl.length + 3 := by simp
  rw [hlen, tryGroup_concat p0 ptl c hdot hlast hc]

/-- In the program, the capture of `regionRE` cannot span a newline: at
"a\nb-c" the leftmost match starts after the newline and captures "b". -/
theorem regionREFind_newline_example :
    regionREFind ("a\nb-c".data) = some ['b'] := by decide

/-- C6: `Locality` produces `"cloud=<provider>,region=<region>,zone=<zone>"`:
for a local VM the region equals the Zone verbatim, and for a non-local VM
whose Zone has the shape `<prefix>-<single lowercase letter>` — with the
prefix non-empty, not ending in a hyphen, and containing no newline before
its final character, which is what matching `regionRE = (.*[^-])-?[a-z]$`
requires, since Go's `.` does not match a newline — the region equals the
prefix. -/
theorem locality_region_format (vm : VM) (p0 : Char) (ptl : List Char) (c : Char) :
    (vm.IsLocal = true →
        Locality vm = LocalityResult.ok
          ("cloud=" ++ vm.Provider ++ ",region=" ++ vm.Zone ++ ",zone=" ++ vm.Zone))
    ∧ (vm.IsLocal = false → vm.Zone.data = p0 :: (ptl ++ '-' :: [c]) →
        dotStarOK (p0 :: ptl) = true →
        lastNonHyphen (p0 :: ptl) = true → isLowerAZ c = true →
        Locality vm = LocalityResult.ok
          ("cloud=" ++ vm.Provider ++ ",region=" ++ String.mk (p0 :: ptl)
            ++ ",zone=" ++ vm.Zone)) := by
  constructor
  · intro h
    simp [Locality, h]
  · intro h hz hdot hlast hc
    simp [Locality, h, hz, regionREFind_concat p0 ptl c hdot hlast hc]

theorem locality_region_format_witness :
    ("us-east1-b".data = 'u' :: ("s-east1".data ++ '-' :: ['b']))
    ∧ Locality { demoVM with Provider := "aws", Zone := configLocal }
        = LocalityResult.ok "cloud=aws,region=local,zone=local"
    ∧ Locality { demoVM with Provider := "gce", Zone := "us-east1-b" }
        = LocalityResult.ok "cloud=gce,region=us-east1,zone=us-east1-b" := by
  refine ⟨by decide, ?_, ?_⟩
  · have h := (locality_region_format
      { demoVM with Provider := "aws", Zone := configLocal } 'x' [] 'x').1 rfl
    exact h.trans (by decide)
  · have h := (locality_region_format
      { demoVM with Provider := "gce", Zone := "us-east1-b" } 'u' "s-east1".data
        'b').2 rfl (by decide) (by decide) (by decide) (by decide)
    exact h.trans (by decide)

/-- C7: the claim asks for a recoverable, typed error when a non-local Zone
does not match `regionRE`, but the source calls `log.Fatalf` there, a
process-terminating fault — modelled by the `fatal` result: at the concrete
non-local, non-matching zone "us-east1" the code reaches the fatal branch and
produces no `ok` result at all. -/
theorem locality_fatal_on_unparsable_zone :
    Locality { demoVM with Provider := "gce", Zone := "us-east1" }
      = LocalityResult.fatal "unable to parse region from zone \"us-east1\""
    ∧ ∀ s, Locality { demoVM with Provider := "gce", Zone := "us-east1" }
        ≠ LocalityResult.ok s := by
  have hfat : Locality { demoVM with Provider := "gce", Zone := "us-east1" }
      = LocalityResult.fatal "unable to parse region from zone \"us-east1\"" := by
    decide
  refine ⟨hfat, fun s h => ?_⟩
  rw [hfat] at h
  simp at h

/-! ### Heap lemmas and characterizations of FindActiveAccounts -/

theorem heapRead_append_lt (h l2 : List AccountMap) (i : Nat) (hi : i < h.length) :
    heapRead (h ++ l2) i = heapRead h i :=
  List.getD_append _ _ _ _ hi

theorem heapRead_append_cons (h : List AccountMap) (x : AccountMap)
    (l2 : List AccountMap) : heapRead (h ++ x :: l2) h.length = x := by
  show (h ++ x :: l2).getD h.length [] = x
  rw [List.getD_append_right _ _ _ _ (le_refl _)]
  simp [List.getD]

theorem heapRead_write_ne (h : List AccountMap) (i j : Nat) (m : AccountMap)
    (hij : i ≠ j) : heapRead (heapWrite h i m) j = heapRead h j := by
  show (h.set i m).getD j [] = h.getD j []
  simp [List.getD, List.getElem?_set_ne hij]

theorem findActiveAccounts_cached (reg : Registry) (st : AccountsState) (src : Nat)
    (h : st.cachedActiveAccounts = some src) :
    FindActiveAccounts reg st
      = ({ heap := st.heap ++ [mapCopy (heapRead st.heap src)],
           cachedActiveAccounts := some src },
         Except.ok st.heap.length) := by
  simp [FindActiveAccounts, h, heapAlloc]

theorem findActiveAccounts_uncached_ok (reg : Registry) (st : AccountsState)
    (source : AccountMap)
    (hc : st.cachedActiveAccounts = none)
    (hloop : findActiveAccountsLoop reg (AllProviderNames reg) [] = Except.ok source) :
    FindActiveAccounts reg st
      = ({ heap := st.heap ++ [source, mapCopy source],
           cachedActiveAccounts := some st.heap.length },
         Except.ok (st.heap.length + 1)) := by
  simp [FindActiveAccounts, hc, hloop, heapAlloc]

theorem findActiveAccounts_uncached_err (reg : Registry) (st : AccountsState)
    (e : Err)
    (hc : st.cachedActiveAccounts = none)
    (hloop : findActiveAccountsLoop reg (AllProviderNames reg) [] = Except.error e) :
    FindActiveAccounts reg st = (st, Except.error e) := by
  simp [FindActiveAccounts, hc, hloop]

theorem findActiveAccountsLoop_append_ok (reg : Registry) (pre rest : List String)
    (source : AccountMap)
    (hpre : ∀ m ∈ pre, ∃ q a, lookupProvider reg m = some q
        ∧ q.FindActiveAccount = Except.ok a) :
    ∃ source2, findActiveAccountsLoop reg (pre ++ rest) source
      = findActiveAccountsLoop reg rest source2 := by
  induction pre generalizing source with
  | nil => exact ⟨source, rfl⟩
  | cons n pre2 ih =>
    obtain ⟨q, a, hq, ha⟩ := hpre n (by simp)
    have step : findActiveAccountsLoop reg ((n :: pre2) ++ rest) source
        = findActiveAccountsLoop reg (pre2 ++ rest)
            (if a.length > 0 then mapSet source q.Name a else source) := by
      simp [findActiveAccountsLoop, hq, ha]
    rw [step]
    exact ih _ (fun x hx => hpre x (List.mem_cons_of_mem _ hx))

/-- C9: when an uncached call's account-collecting iteration hits a provider
whose `FindActiveAccount` fails, `FindActiveAccounts` returns the (wrapped)
error with no mapping, the state is unchanged — in particular the
process-lifetime cache stays unset and no partially populated map is retained
— and a subsequent call re-runs the same query from scratch. -/
theorem findActiveAccounts_error_leaves_cache_unset (reg : Registry)
    (st : AccountsState) (pre post : List String) (n : String) (p : Provider)
    (e : Err)
    (hcache : st.cachedActiveAccounts = none)
    (hnames : AllProviderNames reg = pre ++ n :: post)
    (hpre : ∀ m ∈ pre, ∃ q a, lookupProvider reg m = some q
        ∧ q.FindActiveAccount = Except.ok a)
    (hn : lookupProvider reg n = some p)
    (he : p.FindActiveAccount = Except.error e) :
    FindActiveAccounts reg st = (st, Except.error (Err.wrapped n e))
    ∧ FindActiveAccounts reg ((FindActiveAccounts reg st).1)
        = (st, Except.error (Err.wrapped n e)) := by
  have hloop : findActiveAccountsLoop reg (AllProviderNames reg) []
      = Except.error (Err.wrapped n e) := by
    rw [hnames]
    obtain ⟨source2, hs⟩ := findActiveAccountsLoop_append_ok reg pre (n :: post) [] hpre
    rw [hs]
    simp [findActiveAccountsLoop, hn, he]
  have h1 := findActiveAccounts_uncached_err reg st _ hcache hloop
  refine ⟨h1, ?_⟩
  rw [h1]
  exact h1

theorem findActiveAccounts_error_witness :
    demoState0.cachedActiveAccounts = none
    ∧ AllProviderNames regAccounts = ["aws"] ++ "gce" :: []
    ∧ FindActiveAccounts regAccounts demoState0
        = (demoState0, Except.error (Err.wrapped "gce" (Err.other "denied"))) := by
  refine ⟨rfl, rfl, ?_⟩
  exact (findActiveAccounts_error_leaves_cache_unset regAccounts demoState0 ["aws"]
    [] "gce" pGceBad (Err.other "denied") rfl rfl
    (fun m hm => by
      rw [List.mem_singleton] at hm
      subst hm
      exact ⟨pAws, "alice", rfl, rfl⟩)
    rfl rfl).1

/-- C8: after a first successful call the cache address is held unchanged, and
each call returns a freshly allocated copy of the cached map: the two
addresses returned by successive calls differ from each other and from the
cache's own address, their contents are equal, and mutating the object behind
the first returned address leaves the content behind the second unchanged. -/
theorem findActiveAccounts_copy_independent (reg : Registry)
    (st st1 st2 : AccountsState) (a1 a2 : Nat)
    (hwf : ∀ a, st.cachedActiveAccounts = some a → a < st.heap.length)
    (h1 : FindActiveAccounts reg st = (st1, Except.ok a1))
    (h2 : FindActiveAccounts reg st1 = (st2, Except.ok a2)) :
    a1 ≠ a2
    ∧ heapRead st2.heap a1 = heapRead st2.heap a2
    ∧ (∀ m, heapRead (heapWrite st2.heap a1 m) a2 = heapRead st2.heap a2)
    ∧ st2.cachedActiveAccounts = st1.cachedActiveAccounts
    ∧ (∃ csrc, st1.cachedActiveAccounts = some csrc ∧ a1 ≠ csrc ∧ a2 ≠ csrc
        ∧ heapRead st2.heap a2 = mapCopy (heapRead st2.heap csrc)) := by
  cases hc : st.cachedActiveAccounts with
  | some src =>
    have hsrc : src < st.heap.length := hwf src hc
    rw [findActiveAccounts_cached reg st src hc] at h1
    have hst1 : st1 = { heap := st.heap ++ [mapCopy (heapRead st.heap src)],
                        cachedActiveAccounts := some src } := by
      have h := congrArg Prod.fst h1
      simpa using h.symm
    have ha1 : a1 = st.heap.length := by
      have h := congrArg Prod.snd h1
      simp at h
      exact h.symm
    have hcach1 : st1.cachedActiveAccounts = some src := by rw [hst1]
    have hheap1 : st1.heap = st.heap ++ [mapCopy (heapRead st.heap src)] := by
      rw [hst1]
    rw [findActiveAccounts_cached reg st1 src hcach1] at h2
    have hst2 : st2 = { heap := st1.heap ++ [mapCopy (heapRead st1.heap src)],
                        cachedActiveAccounts := some src } := by
      have h := congrArg Prod.fst h2
      simpa using h.symm
    have ha2 : a2 = st1.heap.length := by
      have h := congrArg Prod.snd h2
      simp at h
      exact h.symm
    have hrs1 : heapRead st1.heap src = heapRead st.heap src := by
      rw [hheap1]
      exact heapRead_append_lt _ _ _ hsrc
    have hlen1 : st1.heap.length = st.heap.length + 1 := by rw [hheap1]; simp
    have hheap2 : st2.heap = st1.heap ++ [mapCopy (heapRead st.heap src)] := by
      rw [hst2, hrs1]
    have hv1 : heapRead st2.heap a1 = mapCopy (heapRead st.heap src) := by
      rw [hheap2, ha1, heapRead_append_lt _ _ _ (by omega), hheap1]
      exact heapRead_append_cons _ _ _
    have hv2 : heapRead st2.heap a2 = mapCopy (heapRead st.heap src) := by
      rw [hheap2, ha2]
      exact heapRead_append_cons _ _ _
    have hvsrc : heapRead st2.heap src = heapRead st.heap src := by
      rw [hheap2, heapRead_append_lt _ _ _ (by omega), hrs1]
    have hne12 : a1 ≠ a2 := by rw [ha1, ha2, hlen1]; omega
    refine ⟨hne12, hv1.trans hv2.symm, fun m => ?_, ?_, src, hcach1, ?_, ?_, ?_⟩
    · rw [heapRead_write_ne _ _ _ _ hne12]
    · rw [hst2, hcach1]
    · rw [ha1]; omega
    · rw [ha2, hlen1]; omega
    · rw [hv2, hvsrc]
  | none =>
    cases hloop : findActiveAccountsLoop reg (AllProviderNames reg) [] with
    | error e =>
      rw [findActiveAccounts_uncached_err reg st e hc hloop] at h1
      have h := congrArg Prod.snd h1
      simp at h
    | ok source =>
      rw [findActiveAccounts_uncached_ok reg st source hc hloop] at h1
      have hst1 : st1 = { heap := st.heap ++ [source, mapCopy source],
                          cachedActiveAccounts := some st.heap.length } := by
        have h := congrArg Prod.fst h1
        simpa using h.symm
      have ha1 : a1 = st.heap.length + 1 := by
        have h := congrArg Prod.snd h1
        simp at h
        exact h.symm
      have hcach1 : st1.cachedActiveAccounts = some st.heap.length := by rw [hst1]
      have hheap1 : st1.heap = st.heap ++ [source, mapCopy source] := by rw [hst1]
      rw [findActiveAccounts_cached reg st1 st.heap.length hcach1] at h2
      have hst2 : st2
          = { heap := st1.heap ++ [mapCopy (heapRead st1.heap st.heap.length)],
              cachedActiveAccounts := some st.heap.length } := by
        have h := congrArg Prod.fst h2
        simpa using h.symm
      have ha2 : a2 = st1.heap.length := by
        have h := congrArg Prod.snd h2
        simp at h
        exact h.symm
      have hlen1 : st1.heap.length = st.heap.length + 2 := by rw [hheap1]; simp
      have hrsrc1 : heapRead st1.heap st.heap.length = source := by
        rw [hheap1]
        exact heapRead_append_cons _ _ _
      have hheap2 : st2.heap = st1.heap ++ [mapCopy source] := by rw [hst2, hrsrc1]
      have hsplit : st1.heap = (st.heap ++ [source]) ++ [mapCopy source] := by
        rw [hheap1]
        simp
      have hv1 : heapRead st2.heap a1 = mapCopy source := by
        rw [hheap2, ha1, heapRead_append_lt _ _ _ (by omega), hsplit,
          show st.heap.length + 1 = (st.heap ++ [source]).length by simp]
        exact heapRead_append_cons _ _ _
      have hv2 : heapRead st2.heap a2 = mapCopy source := by
        rw [hheap2, ha2]
        exact heapRead_append_cons _ _ _
      have hvsrc : heapRead st2.heap st.heap.length = source := by
        rw [hheap2, heapRead_append_lt _ _ _ (by omega), hrsrc1]
      have hne12 : a1 ≠ a2 := by rw [ha1, ha2, hlen1]; omega
      refine ⟨hne12, hv1.trans hv2.symm, fun m => ?_, ?_, st.heap.length, hcach1,
        ?_, ?_, ?_⟩
      · rw [heapRead_write_ne _ _ _ _ hne12]
      · rw [hst2, hcach1]
      · rw [ha1]; omega
      · rw [ha2, hlen1]; omega
      · rw [hv2, hvsrc]

theorem findActiveAccounts_copy_independent_witness :
    FindActiveAccounts regAWS demoState0
      = ({ heap := [demoMap, demoMap], cachedActiveAccounts := some 0 },
         Except.ok 1)
    ∧ FindActiveAccounts regAWS
        { heap := [demoMap, demoMap], cachedActiveAccounts := some 0 }
      = ({ heap := [demoMap, demoMap, demoMap], cachedActiveAccounts := some 0 },
         Except.ok 2)
    ∧ (1 : Nat) ≠ 2
    ∧ ∀ m, heapRead (heapWrite [demoMap, demoMap, demoMap] 1 m) 2
        = heapRead [demoMap, demoMap, demoMap] 2 := by
  have h1 : FindActiveAccounts regAWS demoState0
      = ({ heap := [demoMap, demoMap], cachedActiveAccounts := some 0 },
         Except.ok 1) := by rfl
  have h2 : FindActiveAccounts regAWS
        { heap := [demoMap, demoMap], cachedActiveAccounts := some 0 }
      = ({ heap := [demoMap, demoMap, demoMap], cachedActiveAccounts := some 0 },
         Except.ok 2) := by rfl
  have hmain := findActiveAccounts_copy_independent regAWS demoState0
    { heap := [demoMap, demoMap], cachedActiveAccounts := some 0 }
    { heap := [demoMap, demoMap, demoMap], cachedActiveAccounts := some 0 } 1 2
    (fun a ha => nomatch ha) h1 h2
  exact ⟨h1, h2, hmain.1, fun m => hmain.2.2.1 m⟩

end RoachVM
